import Mathlib

/-!
# Monte Carlo European option pricer: embedding and verification

Shallow embedding of `src/Payoffs.h`, `src/Random.h` and `src/OptionPricing.cpp`.

Modelling conventions.

* `double` is modelled by an arbitrary linearly ordered field `α`; the theorems are stated
  at `α = ℝ` (exact real arithmetic: rounding, overflow to infinities and NaN are outside
  the model).  The two `<cmath>` functions the code calls, `std::exp` and `std::sqrt`, are
  parameters `exp sqrt : α → α` of every definition that uses them; the theorems instantiate
  them with `Real.exp` and `Real.sqrt`.
* `long` is modelled by `Int`.
* The process-wide generator behind `Random::GetStandardNormal` is modelled by an explicit
  state `RandomSource`: a stream of draws together with the position of the next draw.
* Exceptions: the only throwing operation in the pricing function is
  `std::vector::reserve`, see `vector_reserve`.  Memory is unbounded in the model.
-/

set_option autoImplicit false

/-! ## Payoffs (`src/Payoffs.h`) -/

/-- The function `std::max(a, b)` of `<algorithm>`: `(a < b) ? b : a`. -/
def std_max {α : Type} [LinearOrderedField α] (a b : α) : α :=
  if a < b then b else a

/-- The abstract class `Payoff`: its only capability is `operator()(double) const`. -/
abbrev Payoff (α : Type) : Type := α → α

/-- The class `PayoffCall`: `PayoffCall strike` is the constructed object, applying it to
`spotPrice` is `operator()`. -/
def PayoffCall {α : Type} [LinearOrderedField α] (strike : α) : Payoff α :=
  fun spotPrice => std_max 0 (spotPrice - strike)

/-- The class `PayoffPut`. -/
def PayoffPut {α : Type} [LinearOrderedField α] (strike : α) : Payoff α :=
  fun spotPrice => std_max 0 (strike - spotPrice)

/-! ## Random source (`src/Random.h`) -/

/-- State of the process-wide generator: the stream of standard-normal draws it will
produce and the index of the next one. -/
structure RandomSource (α : Type) where
  draws : Nat → α
  pos : Nat

namespace Random

/-- The function `Random::GetStandardNormal()`: returns the next draw and advances the
generator by one position. -/
def GetStandardNormal {α : Type} (rng : RandomSource α) : α × RandomSource α :=
  (rng.draws rng.pos, { rng with pos := rng.pos + 1 })

end Random

/-! ## Pricing (`src/OptionPricing.h`, `src/OptionPricing.cpp`) -/

/-- The struct `MonteCarloResult`. -/
structure MonteCarloResult (α : Type) where
  price : α
  standardError : α
  confidenceIntervalLower : α
  confidenceIntervalUpper : α

/-- Exceptions that can leave `MonteCarloEuropeanOption`. -/
inductive PricingException where
  | length_error
  deriving DecidableEq, Repr

/-- The helper `calculate_std_dev(data, mean)`. -/
def calculate_std_dev {α : Type} [LinearOrderedField α] (sqrt : α → α)
    (data : List α) (mean : α) : α :=
  if data.length ≤ 1 then 0
  else
    let sum_sq_diff := data.foldl (fun acc val => acc + (val - mean) * (val - mean)) 0
    sqrt (sum_sq_diff / ((data.length - 1 : Nat) : α))

/-- The function `SimulateBlackScholesPath`: consumes one draw of the generator and returns
the terminal price together with the advanced generator. -/
def SimulateBlackScholesPath {α : Type} [LinearOrderedField α] (exp sqrt : α → α)
    (initialSpot riskFreeRate volatility timeToMaturity : α) (rng : RandomSource α) :
    α × RandomSource α :=
  let (z, rng1) := Random.GetStandardNormal rng
  let exponent := (riskFreeRate - 0.5 * volatility * volatility) * timeToMaturity +
                    volatility * sqrt timeToMaturity * z
  (initialSpot * exp exponent, rng1)

/-- The call `discountedPayoffs.reserve(numSimulations)`: the `long` argument is converted
to `size_t`; a negative value becomes at least `2^63`, which exceeds `max_size()` (at most
`PTRDIFF_MAX`) on every implementation, so `reserve` throws `std::length_error`.  A
non-negative request is granted (memory is unbounded in the model). -/
def vector_reserve (numSimulations : Int) : Except PricingException Unit :=
  if numSimulations < 0 then .error .length_error else .ok ()

/-- The value of `max_size()` for `std::vector<double>` in libstdc++,
`PTRDIFF_MAX / sizeof(double)`; no common implementation has a smaller one.  A `reserve`
request above it cannot be allocated at all.  Such allocation limits are outside the model
(`vector_reserve` grants every non-negative request); statements whose point is that no
error is reported are stated for trial counts up to this bound. -/
def vector_max_size : Int := (2 ^ 63 - 1) / 8

/-- The loop `for (long i = 0; i < numSimulations; ++i)` of `MonteCarloEuropeanOption`,
by the number of iterations still to run: each iteration simulates one path, evaluates the
payoff and appends the discounted payoff to the vector. -/
def simulationLoop {α : Type} [LinearOrderedField α] (exp sqrt : α → α)
    (initialSpot riskFreeRate volatility timeToMaturity : α) (payoff : Payoff α) :
    Nat → RandomSource α → List α → List α × RandomSource α
  | 0, rng, discountedPayoffs => (discountedPayoffs, rng)
  | remaining + 1, rng, discountedPayoffs =>
    let (finalSpotPrice, rng1) :=
      SimulateBlackScholesPath exp sqrt initialSpot riskFreeRate volatility timeToMaturity rng
    let currentPayoff := payoff finalSpotPrice
    simulationLoop exp sqrt initialSpot riskFreeRate volatility timeToMaturity payoff
      remaining rng1
      (discountedPayoffs ++ [currentPayoff * exp (-riskFreeRate * timeToMaturity)])

/-- The z-score selection of `MonteCarloEuropeanOption` (the `if / else if / else` on
`confidenceLevel`). -/
def z_score {α : Type} [LinearOrderedField α] (confidenceLevel : α) : α :=
  if confidenceLevel = 0.90 then 1.645
  else if confidenceLevel = 0.99 then 2.576
  else 1.96

/-- The function `MonteCarloEuropeanOption`.  It returns the result together with the
generator state it leaves behind, or the exception thrown.  The loop body runs for
`i = 0, …, numSimulations − 1`, that is `numSimulations.toNat` times; `sumOfPayoffs` is the
left fold of `std::accumulate`, and both `sumOfPayoffs / numSimulations` and
`std::sqrt(numSimulations)` convert the `long` to `double`. -/
def MonteCarloEuropeanOption {α : Type} [LinearOrderedField α] (exp sqrt : α → α)
    (initialSpot riskFreeRate volatility timeToMaturity : α) (numSimulations : Int)
    (payoff : Payoff α) (confidenceLevel : α) (rng : RandomSource α) :
    Except PricingException (MonteCarloResult α × RandomSource α) :=
  match vector_reserve numSimulations with
  | .error e => .error e
  | .ok () =>
    let (discountedPayoffs, rng1) :=
      simulationLoop exp sqrt initialSpot riskFreeRate volatility timeToMaturity payoff
        numSimulations.toNat rng []
    let sumOfPayoffs := discountedPayoffs.foldl (fun acc val => acc + val) 0
    let averagePayoff := sumOfPayoffs / (numSimulations : α)
    let stdDev := calculate_std_dev sqrt discountedPayoffs averagePayoff
    let standardError := stdDev / sqrt (numSimulations : α)
    let marginOfError := z_score confidenceLevel * standardError
    .ok ({ price := averagePayoff
           standardError := standardError
           confidenceIntervalLower := averagePayoff - marginOfError
           confidenceIntervalUpper := averagePayoff + marginOfError }, rng1)

/-- The default value `0.95` of the parameter `confidenceLevel` in `OptionPricing.h`. -/
def defaultConfidenceLevel {α : Type} [LinearOrderedField α] : α := 0.95

/-! ## Specification-side definitions -/

/-- Spec: terminal price of the trial that uses the draw `z`
(`spot · exp[(rate − 0.5·volatility²)·maturity + volatility·sqrt(maturity)·z]`). -/
def specTerminalPrice {α : Type} [LinearOrderedField α] (exp sqrt : α → α)
    (spot rate volatility maturity z : α) : α :=
  spot * exp ((rate - 0.5 * volatility ^ 2) * maturity + volatility * sqrt maturity * z)

/-- Spec: the discounted payoff `d_i = payoff(S_i) · exp(−rate·maturity)` of trial `i`
(counted from `0`) when the generator starts in state `rng`. -/
def specDiscountedPayoff {α : Type} [LinearOrderedField α] (exp sqrt : α → α)
    (spot rate volatility maturity : α) (payoff : Payoff α) (rng : RandomSource α)
    (i : Nat) : α :=
  payoff (specTerminalPrice exp sqrt spot rate volatility maturity (rng.draws (rng.pos + i)))
    * exp (-rate * maturity)

/-- Spec: the sample of discounted payoffs `d_0, …, d_(n-1)` of `n` trials. -/
def specSample {α : Type} [LinearOrderedField α] (exp sqrt : α → α)
    (spot rate volatility maturity : α) (payoff : Payoff α) (rng : RandomSource α)
    (n : Nat) : List α :=
  (List.range n).map (specDiscountedPayoff exp sqrt spot rate volatility maturity payoff rng)

/-- Width `confidenceIntervalUpper − confidenceIntervalLower` of a result. -/
def MonteCarloResult.width {α : Type} [LinearOrderedField α] (res : MonteCarloResult α) : α :=
  res.confidenceIntervalUpper - res.confidenceIntervalLower

/-- Spec: the sample mean `(Σ d_i) / n` of the first `n` values of `d`. -/
def specMean {α : Type} [LinearOrderedField α] (d : Nat → α) (n : Nat) : α :=
  (∑ i in Finset.range n, d i) / (n : α)

/-- Spec: the standard error of the first `n` values of `d`: the sample standard deviation
with the unbiased `n − 1` divisor (defined as `0` for `n ≤ 1`), divided by `sqrt n`. -/
def specStandardError {α : Type} [LinearOrderedField α] (sqrt : α → α) (d : Nat → α)
    (n : Nat) : α :=
  (if n ≤ 1 then 0
    else sqrt ((∑ i in Finset.range n, (d i - specMean d n) ^ 2) / ((n : α) - 1))) /
    sqrt (n : α)

/-! ## Executable sanity checks (rational arithmetic) -/

example : PayoffCall (105 : ℚ) 110 = 5 := by norm_num [PayoffCall, std_max]
example : PayoffPut (105 : ℚ) 110 = 0 := by norm_num [PayoffPut, std_max]
example : z_score (0.90 : ℚ) = 1.645 := by norm_num [z_score]
example : calculate_std_dev (fun x : ℚ => x) [1, 3] 2 = 2 := by
  norm_num [calculate_std_dev]

/-! ## Auxiliary lemmas -/

section Aux

variable {α : Type} [LinearOrderedField α]

theorem std_max_eq_max (a b : α) : std_max a b = max a b := by
  unfold std_max
  split_ifs with h
  · exact (max_eq_right h.le).symm
  · exact (max_eq_left (not_lt.mp h)).symm

theorem simulateBlackScholesPath_eq (exp sqrt : α → α) (S r v T : α) (rng : RandomSource α) :
    SimulateBlackScholesPath exp sqrt S r v T rng =
      (specTerminalPrice exp sqrt S r v T (rng.draws rng.pos),
        { rng with pos := rng.pos + 1 }) := by
  simp only [SimulateBlackScholesPath, Random.GetStandardNormal, specTerminalPrice]
  congr 3
  ring

/-- The loop appends the discounted payoffs of the next `n` draws, in order, and leaves the
generator advanced by `n` positions. -/
theorem simulationLoop_eq (exp sqrt : α → α) (S r v T : α) (payoff : Payoff α) (n : Nat) :
    ∀ (rng : RandomSource α) (acc : List α),
      simulationLoop exp sqrt S r v T payoff n rng acc =
        (acc ++ (List.range n).map (specDiscountedPayoff exp sqrt S r v T payoff rng),
          { rng with pos := rng.pos + n }) := by
  induction n with
  | zero => intro rng acc; simp [simulationLoop]
  | succ k ih =>
    intro rng acc
    rw [simulationLoop, simulateBlackScholesPath_eq]
    simp only [ih]
    have hfun : ∀ i : Nat,
        specDiscountedPayoff exp sqrt S r v T payoff { rng with pos := rng.pos + 1 } i =
          specDiscountedPayoff exp sqrt S r v T payoff rng (i + 1) := by
      intro i
      have hi : rng.pos + 1 + i = rng.pos + (i + 1) := by omega
      simp only [specDiscountedPayoff, hi]
    have hhead : payoff (specTerminalPrice exp sqrt S r v T (rng.draws rng.pos)) *
        exp (-r * T) = specDiscountedPayoff exp sqrt S r v T payoff rng 0 := by
      simp only [specDiscountedPayoff, Nat.add_zero]
    have hk : rng.pos + 1 + k = rng.pos + (k + 1) := by omega
    rw [List.range_succ_eq_map, List.map_cons, List.map_map, List.append_assoc,
      List.singleton_append, hhead, hk]
    congr 3
    exact List.map_congr_left (fun i _ => hfun i)

theorem foldl_add_eq (g : α → α) (l : List α) :
    ∀ a : α, l.foldl (fun acc val => acc + g val) a = a + (l.map g).sum := by
  induction l with
  | nil => intro a; simp
  | cons x xs ih => intro a; simp [ih, add_assoc]

theorem sum_map_range (f : Nat → α) (n : Nat) :
    ((List.range n).map f).sum = ∑ i in Finset.range n, f i := by
  induction n with
  | zero => simp
  | succ k ih => simp [List.range_succ, Finset.sum_range_succ, ih]

/-- Sum of squared deviations accumulated by `calculate_std_dev`. -/
theorem foldl_sq_diff_eq (f : Nat → α) (mean : α) (n : Nat) :
    ((List.range n).map f).foldl (fun acc val => acc + (val - mean) * (val - mean)) 0 =
      ∑ i in Finset.range n, (f i - mean) ^ 2 := by
  rw [foldl_add_eq (fun val => (val - mean) * (val - mean)), zero_add, List.map_map,
    sum_map_range]
  exact Finset.sum_congr rfl (fun i _ => by simp only [Function.comp]; ring)

/-- Sum accumulated by `std::accumulate`. -/
theorem foldl_sum_eq (f : Nat → α) (n : Nat) :
    ((List.range n).map f).foldl (fun acc val => acc + val) 0 =
      ∑ i in Finset.range n, f i := by
  rw [foldl_add_eq (fun val : α => val), zero_add, List.map_map, sum_map_range]
  rfl

/-- Closed form of a successful run: for a non-negative trial count the function returns
the statistics of the sample `specSample` and leaves the generator advanced by the trial
count. -/
theorem monteCarlo_eq (exp sqrt : α → α) (S r v T : α) (N : Int) (hN : 0 ≤ N)
    (payoff : Payoff α) (cl : α) (rng : RandomSource α) :
    MonteCarloEuropeanOption exp sqrt S r v T N payoff cl rng =
      .ok ({ price := (specSample exp sqrt S r v T payoff rng N.toNat).foldl
                (fun acc val => acc + val) 0 / (N : α)
             standardError :=
                calculate_std_dev sqrt (specSample exp sqrt S r v T payoff rng N.toNat)
                  ((specSample exp sqrt S r v T payoff rng N.toNat).foldl
                    (fun acc val => acc + val) 0 / (N : α)) / sqrt (N : α)
             confidenceIntervalLower :=
                (specSample exp sqrt S r v T payoff rng N.toNat).foldl
                    (fun acc val => acc + val) 0 / (N : α) -
                  z_score cl *
                    (calculate_std_dev sqrt (specSample exp sqrt S r v T payoff rng N.toNat)
                      ((specSample exp sqrt S r v T payoff rng N.toNat).foldl
                        (fun acc val => acc + val) 0 / (N : α)) / sqrt (N : α))
             confidenceIntervalUpper :=
                (specSample exp sqrt S r v T payoff rng N.toNat).foldl
                    (fun acc val => acc + val) 0 / (N : α) +
                  z_score cl *
                    (calculate_std_dev sqrt (specSample exp sqrt S r v T payoff rng N.toNat)
                      ((specSample exp sqrt S r v T payoff rng N.toNat).foldl
                        (fun acc val => acc + val) 0 / (N : α)) / sqrt (N : α)) },
           { rng with pos := rng.pos + N.toNat }) := by
  have hres : vector_reserve N = .ok () := by
    simp [vector_reserve, not_lt.mpr hN]
  simp only [MonteCarloEuropeanOption, hres, simulationLoop_eq, List.nil_append, specSample]

theorem monteCarlo_neg (exp sqrt : α → α) (S r v T : α) (N : Int) (hN : N < 0)
    (payoff : Payoff α) (cl : α) (rng : RandomSource α) :
    MonteCarloEuropeanOption exp sqrt S r v T N payoff cl rng = .error .length_error := by
  simp [MonteCarloEuropeanOption, vector_reserve, hN]

theorem specSample_length (exp sqrt : α → α) (S r v T : α) (payoff : Payoff α)
    (rng : RandomSource α) (n : Nat) :
    (specSample exp sqrt S r v T payoff rng n).length = n := by
  simp [specSample]

end Aux

/-! ## Facts about casts of the trial count -/

theorem toNat_cast_real (N : Int) (hN : 0 ≤ N) : ((N.toNat : Nat) : ℝ) = (N : ℝ) := by
  have h : ((N.toNat : Int) : ℝ) = (N : ℝ) := by rw [Int.toNat_of_nonneg hN]
  rwa [Int.cast_natCast] at h

theorem toNat_pred_cast_real (N : Int) (hN : 1 ≤ N) :
    ((N.toNat - 1 : Nat) : ℝ) = (N : ℝ) - 1 := by
  have h1 : 1 ≤ N.toNat := by omega
  rw [Nat.cast_sub h1, toNat_cast_real N (by omega)]
  simp

theorem calculate_std_dev_nonneg (data : List ℝ) (mean : ℝ) :
    0 ≤ calculate_std_dev Real.sqrt data mean := by
  unfold calculate_std_dev
  split_ifs
  · exact le_refl 0
  · exact Real.sqrt_nonneg _

theorem z_score_pos (cl : ℝ) : 0 < z_score cl := by
  unfold z_score
  split_ifs <;> norm_num

theorem z_score_90 : z_score (0.90 : ℝ) = 1.645 := by
  norm_num [z_score]

theorem z_score_95 : z_score (0.95 : ℝ) = 1.96 := by
  norm_num [z_score]

theorem z_score_99 : z_score (0.99 : ℝ) = 2.576 := by
  norm_num [z_score]

/-- A run whose discounted payoffs all equal `c` returns `price = c`, `standardError = 0`
and the interval `[c, c]`. -/
theorem monteCarlo_const (S r v T : ℝ) (N : Int) (hN : 1 ≤ N) (payoff : Payoff ℝ) (cl : ℝ)
    (rng : RandomSource ℝ) (c : ℝ)
    (hc : ∀ i, i < N.toNat → specDiscountedPayoff Real.exp Real.sqrt S r v T payoff rng i = c) :
    MonteCarloEuropeanOption Real.exp Real.sqrt S r v T N payoff cl rng =
      .ok ({ price := c, standardError := 0,
             confidenceIntervalLower := c, confidenceIntervalUpper := c },
           { rng with pos := rng.pos + N.toNat }) := by
  have hN0 : (N : ℝ) ≠ 0 := by
    have : (0 : ℝ) < (N : ℝ) := by exact_mod_cast (by omega : (0 : Int) < N)
    exact ne_of_gt this
  have hsum : ∑ i in Finset.range N.toNat,
      specDiscountedPayoff Real.exp Real.sqrt S r v T payoff rng i = (N : ℝ) * c := by
    rw [Finset.sum_congr rfl (fun i hi => hc i (Finset.mem_range.mp hi))]
    simp [Finset.sum_const, nsmul_eq_mul, toNat_cast_real N (by omega)]
  have hprice : (specSample Real.exp Real.sqrt S r v T payoff rng N.toNat).foldl
      (fun acc val => acc + val) 0 / (N : ℝ) = c := by
    simp only [specSample, foldl_sum_eq, hsum]
    field_simp
  have hsq : ∑ i in Finset.range N.toNat,
      (specDiscountedPayoff Real.exp Real.sqrt S r v T payoff rng i - c) ^ 2 = 0 := by
    rw [Finset.sum_congr rfl (fun i hi => by rw [hc i (Finset.mem_range.mp hi)])]
    simp
  have hsd : calculate_std_dev Real.sqrt
      (specSample Real.exp Real.sqrt S r v T payoff rng N.toNat) c = 0 := by
    unfold calculate_std_dev
    split_ifs
    · rfl
    · simp only [specSample, foldl_sq_diff_eq, hsq, zero_div, Real.sqrt_zero]
  rw [monteCarlo_eq Real.exp Real.sqrt S r v T N (by omega) payoff cl rng, hprice, hsd]
  simp

/-- With volatility `0` every trial has the same discounted payoff, whatever the draw. -/
theorem specDiscountedPayoff_vol_zero (S r T : ℝ) (payoff : Payoff ℝ) (rng : RandomSource ℝ)
    (i : Nat) :
    specDiscountedPayoff Real.exp Real.sqrt S r 0 T payoff rng i =
      payoff (S * Real.exp (r * T)) * Real.exp (-r * T) := by
  simp [specDiscountedPayoff, specTerminalPrice]

theorem width_eq (res : MonteCarloResult ℝ) (z : ℝ)
    (hl : res.confidenceIntervalLower = res.price - z * res.standardError)
    (hu : res.confidenceIntervalUpper = res.price + z * res.standardError) :
    res.width = 2 * z * res.standardError := by
  rw [MonteCarloResult.width, hl, hu]
  ring

/-! ## C1: sample mean and standard error -/

/-- C1: for every trial count `N ≥ 2`, every market-parameter tuple, payoff, confidence
level and generator state, `MonteCarloEuropeanOption` returns a result whose `price` is
`(1/N) · Σ d_i` and whose `standardError` is `sqrt(Σ (d_i − price)² / (N − 1)) / sqrt(N)`,
where `d_i` is the discounted payoff of the terminal price simulated from the `i`-th draw. -/
theorem C1_price_and_standard_error (S r v T : ℝ) (N : Int) (hN : 2 ≤ N)
    (payoff : Payoff ℝ) (cl : ℝ) (rng : RandomSource ℝ) :
    ∃ res rng1,
      MonteCarloEuropeanOption Real.exp Real.sqrt S r v T N payoff cl rng = .ok (res, rng1) ∧
      res.price = (1 / (N : ℝ)) *
        ∑ i in Finset.range N.toNat,
          specDiscountedPayoff Real.exp Real.sqrt S r v T payoff rng i ∧
      res.standardError =
        Real.sqrt ((∑ i in Finset.range N.toNat,
          (specDiscountedPayoff Real.exp Real.sqrt S r v T payoff rng i - res.price) ^ 2) /
            ((N : ℝ) - 1)) / Real.sqrt (N : ℝ) := by
  refine ⟨_, _, monteCarlo_eq Real.exp Real.sqrt S r v T N (by omega) payoff cl rng, ?_, ?_⟩
  · simp only [specSample, foldl_sum_eq]
    ring
  · have hlen : ¬ (N.toNat ≤ 1) := by omega
    simp only [calculate_std_dev, specSample_length, hlen, if_false]
    simp only [specSample, foldl_sq_diff_eq, foldl_sum_eq, toNat_pred_cast_real N (by omega)]

/-- Witness of C1: two trials of an at-the-money call. -/
theorem C1_price_and_standard_error_witness :
    (2 : Int) ≤ 2 ∧
    ∃ res rng1,
      MonteCarloEuropeanOption Real.exp Real.sqrt 100 0.05 0.2 1 2 (PayoffCall 100) 0.95
        ⟨fun _ => 0, 0⟩ = .ok (res, rng1) ∧
      res.price = (1 / ((2 : Int) : ℝ)) *
        ∑ i in Finset.range (2 : Int).toNat,
          specDiscountedPayoff Real.exp Real.sqrt 100 0.05 0.2 1 (PayoffCall 100)
            ⟨fun _ => 0, 0⟩ i ∧
      res.standardError =
        Real.sqrt ((∑ i in Finset.range (2 : Int).toNat,
          (specDiscountedPayoff Real.exp Real.sqrt 100 0.05 0.2 1 (PayoffCall 100)
            ⟨fun _ => 0, 0⟩ i - res.price) ^ 2) /
            (((2 : Int) : ℝ) - 1)) / Real.sqrt ((2 : Int) : ℝ) :=
  ⟨by decide,
    C1_price_and_standard_error 100 0.05 0.2 1 2 (by decide) (PayoffCall 100) 0.95
      ⟨fun _ => 0, 0⟩⟩

/-! ## C2: the path model -/

/-- C2: `SimulateBlackScholesPath` consumes the next draw `z` and returns
`spot · exp((rate − 0.5·volatility²)·maturity + volatility·sqrt(maturity)·z)`; this value
is strictly positive whenever `spot > 0`. -/
theorem C2_terminal_price (S r v T : ℝ) (rng : RandomSource ℝ) :
    SimulateBlackScholesPath Real.exp Real.sqrt S r v T rng =
        (S * Real.exp ((r - 0.5 * v ^ 2) * T + v * Real.sqrt T * rng.draws rng.pos),
          { rng with pos := rng.pos + 1 }) ∧
      (0 < S → 0 < (SimulateBlackScholesPath Real.exp Real.sqrt S r v T rng).1) := by
  rw [simulateBlackScholesPath_eq]
  refine ⟨rfl, fun hS => ?_⟩
  exact mul_pos hS (Real.exp_pos _)

/-- Witness of C2: spot `100`. -/
theorem C2_terminal_price_witness :
    (0 : ℝ) < 100 ∧
    0 < (SimulateBlackScholesPath Real.exp Real.sqrt 100 0.05 0.2 1 ⟨fun _ => 0, 0⟩).1 :=
  ⟨by norm_num,
    (C2_terminal_price 100 0.05 0.2 1 ⟨fun _ => 0, 0⟩).2 (by norm_num)⟩

/-! ## C3: the payoffs -/

/-- C3: for every strike `K` and terminal price `S`, `PayoffCall K` at `S` is
`max(0, S − K)` and `PayoffPut K` at `S` is `max(0, K − S)`. -/
theorem C3_payoff_values (K S : ℝ) :
    PayoffCall K S = max 0 (S - K) ∧ PayoffPut K S = max 0 (K - S) :=
  ⟨std_max_eq_max 0 (S - K), std_max_eq_max 0 (K - S)⟩

/-! ## C4: the confidence interval and the z-score lookup -/

/-- C4, counterexample: with the trial count `-1` the call returns no result at all, hence
no confidence interval: it ends in the `std::length_error` of `reserve`. -/
theorem C4_negative_count_no_interval :
    MonteCarloEuropeanOption Real.exp Real.sqrt 100 0.05 0.2 1 (-1) (PayoffCall 100) 0.5
        ⟨fun i => (i : ℝ) - 1, 0⟩ = .error .length_error ∧
    ¬ ∃ res rng1,
      MonteCarloEuropeanOption Real.exp Real.sqrt 100 0.05 0.2 1 (-1) (PayoffCall 100) 0.5
        ⟨fun i => (i : ℝ) - 1, 0⟩ = .ok (res, rng1) ∧
      res.confidenceIntervalLower = res.price - z_score (0.5 : ℝ) * res.standardError ∧
      res.confidenceIntervalUpper = res.price + z_score (0.5 : ℝ) * res.standardError := by
  have h := monteCarlo_neg Real.exp Real.sqrt 100 0.05 0.2 1 (-1) (by decide)
    (PayoffCall 100) 0.5 ⟨fun i => (i : ℝ) - 1, 0⟩
  refine ⟨h, ?_⟩
  rintro ⟨res, rng1, hok, -⟩
  rw [h] at hok
  cases hok

/-- C4, amended: for every input with a trial count `N ≥ 1` that the payoff vector can hold
(`N ≤ max_size`), `MonteCarloEuropeanOption` returns (without error, whatever the
confidence level) `confidenceIntervalLower = price − z·standardError` and
`confidenceIntervalUpper = price + z·standardError`, where `z` is `1.645` if the
confidence level is exactly `0.90`, `2.576` if it is exactly `0.99`, and `1.96` for every
other value, among them `0.95` (the default), `0.9499999` and `0.5`. -/
theorem C4_confidence_interval (S r v T : ℝ) (N : Int) (hN : 1 ≤ N)
    (_hmax : N ≤ vector_max_size) (payoff : Payoff ℝ) (cl : ℝ) (rng : RandomSource ℝ) :
    (∃ res rng1,
      MonteCarloEuropeanOption Real.exp Real.sqrt S r v T N payoff cl rng = .ok (res, rng1) ∧
      res.confidenceIntervalLower = res.price - z_score cl * res.standardError ∧
      res.confidenceIntervalUpper = res.price + z_score cl * res.standardError) ∧
    (cl = 0.90 → z_score cl = 1.645) ∧
    (cl = 0.99 → z_score cl = 2.576) ∧
    (cl ≠ 0.90 → cl ≠ 0.99 → z_score cl = 1.96) ∧
    z_score (defaultConfidenceLevel : ℝ) = 1.96 ∧
    z_score (0.95 : ℝ) = 1.96 ∧ z_score (0.9499999 : ℝ) = 1.96 ∧ z_score (0.5 : ℝ) = 1.96 := by
  refine ⟨⟨_, _, monteCarlo_eq Real.exp Real.sqrt S r v T N (by omega) payoff cl rng,
    rfl, rfl⟩, ?_, ?_, ?_, ?_, ?_, ?_, ?_⟩
  · intro h; rw [h]; exact z_score_90
  · intro h; rw [h]; exact z_score_99
  · intro h1 h2; simp [z_score, h1, h2]
  · norm_num [z_score, defaultConfidenceLevel]
  · exact z_score_95
  · norm_num [z_score]
  · norm_num [z_score]

/-- Witness of C4 (amended): three trials with three different draws at the unrecognised
confidence level `0.5`. -/
theorem C4_confidence_interval_witness :
    (1 : Int) ≤ 3 ∧ (3 : Int) ≤ vector_max_size ∧
    (∃ res rng1,
      MonteCarloEuropeanOption Real.exp Real.sqrt 100 0.05 0.2 1 3 (PayoffCall 100) 0.5
        ⟨fun i => (i : ℝ) - 1, 0⟩ = .ok (res, rng1) ∧
      res.confidenceIntervalLower = res.price - z_score (0.5 : ℝ) * res.standardError ∧
      res.confidenceIntervalUpper = res.price + z_score (0.5 : ℝ) * res.standardError) ∧
    ((0.5 : ℝ) ≠ 0.90 → (0.5 : ℝ) ≠ 0.99 → z_score (0.5 : ℝ) = 1.96) :=
  ⟨by decide, by decide,
    (C4_confidence_interval 100 0.05 0.2 1 3 (by decide) (by decide) (PayoffCall 100) 0.5
      ⟨fun i => (i : ℝ) - 1, 0⟩).1,
    (C4_confidence_interval 100 0.05 0.2 1 3 (by decide) (by decide) (PayoffCall 100) 0.5
      ⟨fun i => (i : ℝ) - 1, 0⟩).2.2.2.1⟩

/-! ## C5: the result invariant -/

/-- C5: for every input with trial count `N ≥ 1` (in particular every valid input:
`spot > 0`, `maturity > 0`, `volatility ≥ 0`), any payoff, confidence level and draw
sequence, the result satisfies
`confidenceIntervalLower ≤ price ≤ confidenceIntervalUpper` and `standardError ≥ 0`. -/
theorem C5_result_invariant (S r v T : ℝ) (N : Int) (hN : 1 ≤ N) (payoff : Payoff ℝ)
    (cl : ℝ) (rng : RandomSource ℝ) :
    ∃ res rng1,
      MonteCarloEuropeanOption Real.exp Real.sqrt S r v T N payoff cl rng = .ok (res, rng1) ∧
      res.confidenceIntervalLower ≤ res.price ∧
      res.price ≤ res.confidenceIntervalUpper ∧
      0 ≤ res.standardError := by
  have hse : 0 ≤ calculate_std_dev Real.sqrt
      (specSample Real.exp Real.sqrt S r v T payoff rng N.toNat)
      ((specSample Real.exp Real.sqrt S r v T payoff rng N.toNat).foldl
        (fun acc val => acc + val) 0 / (N : ℝ)) / Real.sqrt (N : ℝ) :=
    div_nonneg (calculate_std_dev_nonneg _ _) (Real.sqrt_nonneg _)
  have hm := mul_nonneg (z_score_pos cl).le hse
  refine ⟨_, _, monteCarlo_eq Real.exp Real.sqrt S r v T N (by omega) payoff cl rng,
    ?_, ?_, hse⟩
  · simp only; linarith
  · simp only; linarith

/-- Witness of C5: two trials of a call. -/
theorem C5_result_invariant_witness :
    (1 : Int) ≤ 2 ∧
    ∃ res rng1,
      MonteCarloEuropeanOption Real.exp Real.sqrt 100 0.05 0.2 1 2 (PayoffCall 105) 0.99
        ⟨fun i => (i : ℝ), 0⟩ = .ok (res, rng1) ∧
      res.confidenceIntervalLower ≤ res.price ∧
      res.price ≤ res.confidenceIntervalUpper ∧
      0 ≤ res.standardError :=
  ⟨by decide,
    C5_result_invariant 100 0.05 0.2 1 2 (by decide) (PayoffCall 105) 0.99
      ⟨fun i => (i : ℝ), 0⟩⟩

/-! ## C6: interval width against the confidence level -/

/-- C6, counterexample: with volatility `0` (two trials of a call struck at `105`, spot
`100`, rate `0.05`, maturity `1`) the sample is constant, the runs at confidence levels
`0.90` and `0.95` both return an interval of width `0`, and the width at `0.90` is not
smaller than the width at `0.95`. -/
theorem C6_width_not_strict :
    ∃ r90 r95 g90 g95,
      MonteCarloEuropeanOption Real.exp Real.sqrt 100 0.05 0 1 2 (PayoffCall 105) 0.90
        ⟨fun _ => 0, 0⟩ = .ok (r90, g90) ∧
      MonteCarloEuropeanOption Real.exp Real.sqrt 100 0.05 0 1 2 (PayoffCall 105) 0.95
        ⟨fun _ => 0, 0⟩ = .ok (r95, g95) ∧
      r90.width = 0 ∧ r95.width = 0 ∧ ¬ (r90.width < r95.width) := by
  have h := fun cl : ℝ =>
    monteCarlo_const 100 0.05 0 1 2 (by decide) (PayoffCall 105) cl ⟨fun _ => 0, 0⟩ _
      (fun i _ => specDiscountedPayoff_vol_zero 100 0.05 1 (PayoffCall 105) ⟨fun _ => 0, 0⟩ i)
  refine ⟨_, _, _, _, h 0.90, h 0.95, ?_, ?_, ?_⟩ <;> simp [MonteCarloResult.width]

/-- C6, amended: for all valid inputs and one and the same sample (`N ≥ 1`, same
parameters, payoff and draws), the interval width is non-decreasing in the confidence
level: width at `0.90` ≤ width at `0.95` ≤ width at `0.99`. -/
theorem C6_width_monotone (S r v T : ℝ) (N : Int) (hN : 1 ≤ N) (payoff : Payoff ℝ)
    (rng : RandomSource ℝ) :
    ∃ r90 r95 r99 g90 g95 g99,
      MonteCarloEuropeanOption Real.exp Real.sqrt S r v T N payoff 0.90 rng = .ok (r90, g90) ∧
      MonteCarloEuropeanOption Real.exp Real.sqrt S r v T N payoff 0.95 rng = .ok (r95, g95) ∧
      MonteCarloEuropeanOption Real.exp Real.sqrt S r v T N payoff 0.99 rng = .ok (r99, g99) ∧
      r90.width ≤ r95.width ∧ r95.width ≤ r99.width := by
  have hse : 0 ≤ calculate_std_dev Real.sqrt
      (specSample Real.exp Real.sqrt S r v T payoff rng N.toNat)
      ((specSample Real.exp Real.sqrt S r v T payoff rng N.toNat).foldl
        (fun acc val => acc + val) 0 / (N : ℝ)) / Real.sqrt (N : ℝ) :=
    div_nonneg (calculate_std_dev_nonneg _ _) (Real.sqrt_nonneg _)
  have h := fun cl : ℝ => monteCarlo_eq Real.exp Real.sqrt S r v T N (by omega) payoff cl rng
  refine ⟨_, _, _, _, _, _, h 0.90, h 0.95, h 0.99, ?_, ?_⟩
  · rw [width_eq _ (z_score 0.90) rfl rfl, width_eq _ (z_score 0.95) rfl rfl,
      z_score_90, z_score_95]
    simp only
    nlinarith
  · rw [width_eq _ (z_score 0.95) rfl rfl, width_eq _ (z_score 0.99) rfl rfl,
      z_score_95, z_score_99]
    simp only
    nlinarith

/-- Witness of C6 (amended): three trials of a call with three different draws. -/
theorem C6_width_monotone_witness :
    (1 : Int) ≤ 3 ∧
    ∃ r90 r95 r99 g90 g95 g99,
      MonteCarloEuropeanOption Real.exp Real.sqrt 100 0.05 0.2 1 3 (PayoffCall 105) 0.90
        ⟨fun i => (i : ℝ) - 1, 0⟩ = .ok (r90, g90) ∧
      MonteCarloEuropeanOption Real.exp Real.sqrt 100 0.05 0.2 1 3 (PayoffCall 105) 0.95
        ⟨fun i => (i : ℝ) - 1, 0⟩ = .ok (r95, g95) ∧
      MonteCarloEuropeanOption Real.exp Real.sqrt 100 0.05 0.2 1 3 (PayoffCall 105) 0.99
        ⟨fun i => (i : ℝ) - 1, 0⟩ = .ok (r99, g99) ∧
      r90.width ≤ r95.width ∧ r95.width ≤ r99.width :=
  ⟨by decide,
    C6_width_monotone 100 0.05 0.2 1 3 (by decide) (PayoffCall 105)
      ⟨fun i => (i : ℝ) - 1, 0⟩⟩

/-! ## C7: the trial count is not validated -/

/-- C7, counterexample: a call with `numSimulations = 0` is not rejected; it returns a
zero-trial result and leaves the generator where it was. -/
theorem C7_zero_trials_not_rejected :
    ∃ res,
      MonteCarloEuropeanOption Real.exp Real.sqrt 100 0.05 0.2 1 0 (PayoffCall 105) 0.95
        ⟨fun _ => 0, 0⟩ = .ok (res, ⟨fun _ => 0, 0⟩) :=
  ⟨_, monteCarlo_eq Real.exp Real.sqrt 100 0.05 0.2 1 0 (le_refl 0) (PayoffCall 105) 0.95
    ⟨fun _ => 0, 0⟩⟩

/-- C7, amended: `MonteCarloEuropeanOption` has no check of the trial count of its own.  A
negative `numSimulations` fails with the `std::length_error` of the vector's `reserve`;
`numSimulations = 0` is not rejected: the call returns a `MonteCarloResult` without
consuming a draw. -/
theorem C7_trial_count_handling (S r v T : ℝ) (N : Int) (payoff : Payoff ℝ) (cl : ℝ)
    (rng : RandomSource ℝ) :
    (N < 0 →
      MonteCarloEuropeanOption Real.exp Real.sqrt S r v T N payoff cl rng =
        .error .length_error) ∧
    (N = 0 →
      ∃ res, MonteCarloEuropeanOption Real.exp Real.sqrt S r v T N payoff cl rng =
        .ok (res, rng)) := by
  refine ⟨fun hN => monteCarlo_neg Real.exp Real.sqrt S r v T N hN payoff cl rng, ?_⟩
  intro hN
  subst hN
  exact ⟨_, monteCarlo_eq Real.exp Real.sqrt S r v T 0 (le_refl 0) payoff cl rng⟩

/-- Witness of C7 (amended): trial counts `-1` and `0`. -/
theorem C7_trial_count_handling_witness :
    ((-1 : Int) < 0 ∧
      MonteCarloEuropeanOption Real.exp Real.sqrt 100 0.05 0.2 1 (-1) (PayoffCall 105) 0.95
        ⟨fun _ => 0, 0⟩ = .error .length_error) ∧
    ((0 : Int) = 0 ∧
      ∃ res, MonteCarloEuropeanOption Real.exp Real.sqrt 100 0.05 0.2 1 0 (PayoffCall 105)
        0.95 ⟨fun _ => 0, 0⟩ = .ok (res, ⟨fun _ => 0, 0⟩)) :=
  ⟨⟨by decide,
      (C7_trial_count_handling 100 0.05 0.2 1 (-1) (PayoffCall 105) 0.95 ⟨fun _ => 0, 0⟩).1
        (by decide)⟩,
    ⟨rfl,
      (C7_trial_count_handling 100 0.05 0.2 1 0 (PayoffCall 105) 0.95 ⟨fun _ => 0, 0⟩).2
        rfl⟩⟩

/-! ## C8: the market parameters are not validated -/

/-- C8, counterexample: with spot `0` and maturity `0` (one trial of a call struck at
`105`) no error is reported; the call returns the result computed from these parameters,
all of whose fields are `0`. -/
theorem C8_nonpositive_parameters_not_rejected :
    MonteCarloEuropeanOption Real.exp Real.sqrt 0 0.05 0.2 0 1 (PayoffCall 105) 0.95
        ⟨fun _ => 0, 0⟩ =
      .ok ({ price := 0, standardError := 0,
             confidenceIntervalLower := 0, confidenceIntervalUpper := 0 },
           ⟨fun _ => 0, 1⟩) := by
  have h := monteCarlo_const 0 0.05 0.2 0 1 (by decide) (PayoffCall 105) 0.95
    ⟨fun _ => 0, 0⟩ 0
    (fun i _ => by
      norm_num [specDiscountedPayoff, specTerminalPrice, PayoffCall, std_max])
  simpa using h

/-- C8, amended: neither `SimulateBlackScholesPath` nor `MonteCarloEuropeanOption` validates
the market parameters.  For every spot and maturity, non-positive ones included, a path call
consumes one draw, and for every trial count `0 ≤ N ≤ max_size` the pricing call reports
no error: it returns a `MonteCarloResult` and leaves the generator advanced by `N` draws.
Nothing is stated about the values computed from such parameters. -/
theorem C8_market_parameters_not_validated (S r v T : ℝ) (N : Int) (hN : 0 ≤ N)
    (_hmax : N ≤ vector_max_size) (payoff : Payoff ℝ) (cl : ℝ) (rng : RandomSource ℝ) :
    (SimulateBlackScholesPath Real.exp Real.sqrt S r v T rng).2 =
        { rng with pos := rng.pos + 1 } ∧
    ∃ res, MonteCarloEuropeanOption Real.exp Real.sqrt S r v T N payoff cl rng =
      .ok (res, { rng with pos := rng.pos + N.toNat }) := by
  refine ⟨?_, _, monteCarlo_eq Real.exp Real.sqrt S r v T N hN payoff cl rng⟩
  rw [simulateBlackScholesPath_eq]

/-- Witness of C8 (amended): negative spot and negative maturity, three trials. -/
theorem C8_market_parameters_not_validated_witness :
    (0 : Int) ≤ 3 ∧ (3 : Int) ≤ vector_max_size ∧
    (SimulateBlackScholesPath Real.exp Real.sqrt (-100) 0.05 0.2 (-1)
        ⟨fun i => (i : ℝ) - 1, 0⟩).2 =
      { (⟨fun i => (i : ℝ) - 1, 0⟩ : RandomSource ℝ) with pos := 0 + 1 } ∧
    ∃ res, MonteCarloEuropeanOption Real.exp Real.sqrt (-100) 0.05 0.2 (-1) 3 (PayoffPut 105)
        0.95 ⟨fun i => (i : ℝ) - 1, 0⟩ =
      .ok (res,
        { (⟨fun i => (i : ℝ) - 1, 0⟩ : RandomSource ℝ) with pos := 0 + (3 : Int).toNat }) :=
  ⟨by decide, by decide,
    C8_market_parameters_not_validated (-100) 0.05 0.2 (-1) 3 (by decide) (by decide)
      (PayoffPut 105) 0.95 ⟨fun i => (i : ℝ) - 1, 0⟩⟩

/-! ## C9: a single trial -/

/-- C9: for `N = 1`, every market-parameter tuple, payoff, confidence level and draw, the
result has `standardError = 0` exactly and
`confidenceIntervalLower = confidenceIntervalUpper = price`, where `price` is the single
discounted payoff. -/
theorem C9_single_trial (S r v T : ℝ) (payoff : Payoff ℝ) (cl : ℝ) (rng : RandomSource ℝ) :
    ∃ res rng1,
      MonteCarloEuropeanOption Real.exp Real.sqrt S r v T 1 payoff cl rng = .ok (res, rng1) ∧
      res.standardError = 0 ∧
      res.confidenceIntervalLower = res.price ∧
      res.confidenceIntervalUpper = res.price ∧
      res.price =
        payoff (S * Real.exp ((r - 0.5 * v ^ 2) * T + v * Real.sqrt T * rng.draws rng.pos))
          * Real.exp (-r * T) := by
  refine ⟨_, _,
    monteCarlo_const S r v T 1 (le_refl 1) payoff cl rng
      (specDiscountedPayoff Real.exp Real.sqrt S r v T payoff rng 0) ?_, rfl, rfl, rfl, ?_⟩
  · intro i hi
    have hi0 : i = 0 := by
      have : (1 : Int).toNat = 1 := rfl
      omega
    rw [hi0]
  · simp [specDiscountedPayoff, specTerminalPrice]

/-! ## C10: zero volatility -/

/-- C10: for volatility `0`, any `N ≥ 2`, any payoff and any draw sequence, the returned
`price` is the deterministic discounted forward payoff
`exp(−rate·maturity) · payoff(spot · exp(rate·maturity))`; for a call with spot `100`,
strike `105`, rate `0.05`, maturity `1` and `N = 100000` this is
`exp(−0.05) · max(0, 100·exp(0.05) − 105)`. -/
theorem C10_zero_volatility_price :
    (∀ (S r T : ℝ) (N : Int) (payoff : Payoff ℝ) (cl : ℝ) (rng : RandomSource ℝ), 2 ≤ N →
      ∃ res rng1,
        MonteCarloEuropeanOption Real.exp Real.sqrt S r 0 T N payoff cl rng =
          .ok (res, rng1) ∧
        res.price = Real.exp (-r * T) * payoff (S * Real.exp (r * T))) ∧
    (∀ (cl : ℝ) (rng : RandomSource ℝ),
      ∃ res rng1,
        MonteCarloEuropeanOption Real.exp Real.sqrt 100 0.05 0 1 100000 (PayoffCall 105) cl
          rng = .ok (res, rng1) ∧
        res.price = Real.exp (-0.05) * max 0 (100 * Real.exp 0.05 - 105)) := by
  have key : ∀ (S r T : ℝ) (N : Int) (payoff : Payoff ℝ) (cl : ℝ) (rng : RandomSource ℝ),
      2 ≤ N →
      ∃ res rng1,
        MonteCarloEuropeanOption Real.exp Real.sqrt S r 0 T N payoff cl rng =
          .ok (res, rng1) ∧
        res.price = Real.exp (-r * T) * payoff (S * Real.exp (r * T)) := by
    intro S r T N payoff cl rng hN
    exact ⟨_, _,
      monteCarlo_const S r 0 T N (by omega) payoff cl rng _
        (fun i _ => specDiscountedPayoff_vol_zero S r T payoff rng i),
      mul_comm _ _⟩
  refine ⟨key, fun cl rng => ?_⟩
  obtain ⟨res, rng1, hrun, hprice⟩ := key 100 0.05 1 100000 (PayoffCall 105) cl rng (by decide)
  refine ⟨res, rng1, hrun, ?_⟩
  rw [hprice, show PayoffCall (105 : ℝ) (100 * Real.exp (0.05 * 1)) = max 0 (100 * Real.exp (0.05 * 1) - 105) from std_max_eq_max _ _]
  norm_num

/-- Witness of C10: two trials of a put with volatility `0`. -/
theorem C10_zero_volatility_price_witness :
    (2 : Int) ≤ 2 ∧
    ∃ res rng1,
      MonteCarloEuropeanOption Real.exp Real.sqrt 100 0.05 0 1 2 (PayoffPut 105) 0.95
        ⟨fun i => (i : ℝ), 0⟩ = .ok (res, rng1) ∧
      res.price = Real.exp (-0.05 * 1) * PayoffPut 105 (100 * Real.exp (0.05 * 1)) :=
  ⟨by decide,
    C10_zero_volatility_price.1 100 0.05 1 2 (PayoffPut 105) 0.95 ⟨fun i => (i : ℝ), 0⟩
      (by decide)⟩

/-! ## The result in terms of the sample statistics -/

/-- For a non-negative trial count the call returns the sample mean and the standard error
of the discounted payoffs, the interval `price ∓ z·standardError`, and leaves the generator
advanced by the trial count. -/
theorem monteCarlo_spec (S r v T : ℝ) (N : Int) (hN : 0 ≤ N) (payoff : Payoff ℝ) (cl : ℝ)
    (rng : RandomSource ℝ) :
    MonteCarloEuropeanOption Real.exp Real.sqrt S r v T N payoff cl rng =
      .ok ({ price :=
               specMean (specDiscountedPayoff Real.exp Real.sqrt S r v T payoff rng) N.toNat
             standardError :=
               specStandardError Real.sqrt
                 (specDiscountedPayoff Real.exp Real.sqrt S r v T payoff rng) N.toNat
             confidenceIntervalLower :=
               specMean (specDiscountedPayoff Real.exp Real.sqrt S r v T payoff rng) N.toNat -
                 z_score cl * specStandardError Real.sqrt
                   (specDiscountedPayoff Real.exp Real.sqrt S r v T payoff rng) N.toNat
             confidenceIntervalUpper :=
               specMean (specDiscountedPayoff Real.exp Real.sqrt S r v T payoff rng) N.toNat +
                 z_score cl * specStandardError Real.sqrt
                   (specDiscountedPayoff Real.exp Real.sqrt S r v T payoff rng) N.toNat },
           { rng with pos := rng.pos + N.toNat }) := by
  have hmean : (specSample Real.exp Real.sqrt S r v T payoff rng N.toNat).foldl
      (fun acc val => acc + val) 0 / (N : ℝ) =
      specMean (specDiscountedPayoff Real.exp Real.sqrt S r v T payoff rng) N.toNat := by
    simp only [specSample, foldl_sum_eq, specMean, toNat_cast_real N hN]
  have hse : calculate_std_dev Real.sqrt
      (specSample Real.exp Real.sqrt S r v T payoff rng N.toNat)
      (specMean (specDiscountedPayoff Real.exp Real.sqrt S r v T payoff rng) N.toNat) /
        Real.sqrt (N : ℝ) =
      specStandardError Real.sqrt
        (specDiscountedPayoff Real.exp Real.sqrt S r v T payoff rng) N.toNat := by
    unfold calculate_std_dev specStandardError
    rw [specSample_length, toNat_cast_real N hN]
    by_cases hle : N.toNat ≤ 1
    · simp only [hle, if_true]
    · simp only [hle, if_false]
      have h1 : 1 ≤ N := by omega
      rw [toNat_pred_cast_real N h1]
      simp only [specSample, foldl_sq_diff_eq]
  rw [monteCarlo_eq Real.exp Real.sqrt S r v T N hN payoff cl rng, hmean, hse]

theorem std_max_zero_nonneg (x : ℝ) : 0 ≤ std_max 0 x := by
  rw [std_max_eq_max]
  exact le_max_left 0 x

theorem specMean_nonneg (d : Nat → ℝ) (n : Nat) (hd : ∀ i, i < n → 0 ≤ d i) :
    0 ≤ specMean d n :=
  div_nonneg (Finset.sum_nonneg (fun i hi => hd i (Finset.mem_range.mp hi)))
    (Nat.cast_nonneg n)

theorem specDiscountedPayoff_nonneg (S r v T : ℝ) (payoff : Payoff ℝ) (rng : RandomSource ℝ)
    (hp : ∀ s, 0 ≤ payoff s) (i : Nat) :
    0 ≤ specDiscountedPayoff Real.exp Real.sqrt S r v T payoff rng i :=
  mul_nonneg (hp _) (Real.exp_pos _).le

/-- The discounted payoff of trial `i` reads the generator only at position `pos + i`. -/
theorem specDiscountedPayoff_congr (S r v T : ℝ) (payoff : Payoff ℝ)
    (rng1 rng2 : RandomSource ℝ) (i : Nat)
    (h : rng1.draws (rng1.pos + i) = rng2.draws (rng2.pos + i)) :
    specDiscountedPayoff Real.exp Real.sqrt S r v T payoff rng1 i =
      specDiscountedPayoff Real.exp Real.sqrt S r v T payoff rng2 i := by
  simp only [specDiscountedPayoff, h]

theorem specMean_congr (d1 d2 : Nat → ℝ) (n : Nat) (h : ∀ i, i < n → d1 i = d2 i) :
    specMean d1 n = specMean d2 n := by
  unfold specMean
  rw [Finset.sum_congr rfl (fun i hi => h i (Finset.mem_range.mp hi))]

theorem specStandardError_congr (d1 d2 : Nat → ℝ) (n : Nat) (h : ∀ i, i < n → d1 i = d2 i) :
    specStandardError Real.sqrt d1 n = specStandardError Real.sqrt d2 n := by
  unfold specStandardError
  rw [specMean_congr d1 d2 n h,
    Finset.sum_congr rfl (fun i hi => by rw [h i (Finset.mem_range.mp hi)])]

/-! ## C11: the price of a call or a put is non-negative -/

/-- C11: for every `N ≥ 1`, every market-parameter tuple, every draw sequence and a call
or put payoff of any strike, the returned `price` is `≥ 0`. -/
theorem C11_price_nonneg (S r v T : ℝ) (N : Int) (hN : 1 ≤ N) (K cl : ℝ)
    (rng : RandomSource ℝ) :
    (∃ res rng1,
      MonteCarloEuropeanOption Real.exp Real.sqrt S r v T N (PayoffCall K) cl rng =
        .ok (res, rng1) ∧ 0 ≤ res.price) ∧
    (∃ res rng1,
      MonteCarloEuropeanOption Real.exp Real.sqrt S r v T N (PayoffPut K) cl rng =
        .ok (res, rng1) ∧ 0 ≤ res.price) := by
  constructor
  · refine ⟨_, _, monteCarlo_spec S r v T N (by omega) (PayoffCall K) cl rng, ?_⟩
    exact specMean_nonneg _ _ (fun i _ =>
      specDiscountedPayoff_nonneg S r v T (PayoffCall K) rng
        (fun s => std_max_zero_nonneg (s - K)) i)
  · refine ⟨_, _, monteCarlo_spec S r v T N (by omega) (PayoffPut K) cl rng, ?_⟩
    exact specMean_nonneg _ _ (fun i _ =>
      specDiscountedPayoff_nonneg S r v T (PayoffPut K) rng
        (fun s => std_max_zero_nonneg (K - s)) i)

/-- Witness of C11: three trials, strike `105`. -/
theorem C11_price_nonneg_witness :
    (1 : Int) ≤ 3 ∧
    (∃ res rng1,
      MonteCarloEuropeanOption Real.exp Real.sqrt 100 0.05 0.2 1 3 (PayoffCall 105) 0.95
        ⟨fun i => (i : ℝ) - 1, 0⟩ = .ok (res, rng1) ∧ 0 ≤ res.price) ∧
    (∃ res rng1,
      MonteCarloEuropeanOption Real.exp Real.sqrt 100 0.05 0.2 1 3 (PayoffPut 105) 0.95
        ⟨fun i => (i : ℝ) - 1, 0⟩ = .ok (res, rng1) ∧ 0 ≤ res.price) :=
  ⟨by decide,
    C11_price_nonneg 100 0.05 0.2 1 3 (by decide) 105 0.95 ⟨fun i => (i : ℝ) - 1, 0⟩⟩

/-! ## C12: the payoffs are non-negative -/

/-- C12: for every strike and every terminal price (in particular every terminal price
`≥ 0`), the call payoff and the put payoff are both `≥ 0`. -/
theorem C12_payoff_nonneg (K S : ℝ) : 0 ≤ PayoffCall K S ∧ 0 ≤ PayoffPut K S :=
  ⟨std_max_zero_nonneg (S - K), std_max_zero_nonneg (K - S)⟩

/-! ## C13: the draws consumed by a run -/

/-- C13: each call of `SimulateBlackScholesPath` consumes exactly one draw; in a run of
`MonteCarloEuropeanOption` with trial count `N ≥ 0` the `i`-th trial is the path call made
in the generator state advanced by `i`, so it uses the `i`-th draw, and the run leaves the
generator advanced by exactly `N` positions. -/
theorem C13_draws_consumed (S r v T : ℝ) (N : Int) (hN : 0 ≤ N) (payoff : Payoff ℝ)
    (cl : ℝ) (rng : RandomSource ℝ) :
    (∀ g : RandomSource ℝ,
      SimulateBlackScholesPath Real.exp Real.sqrt S r v T g =
        (specTerminalPrice Real.exp Real.sqrt S r v T (g.draws g.pos),
          { g with pos := g.pos + 1 })) ∧
    simulationLoop Real.exp Real.sqrt S r v T payoff N.toNat rng [] =
      ((List.range N.toNat).map (fun i =>
          payoff (SimulateBlackScholesPath Real.exp Real.sqrt S r v T
            { rng with pos := rng.pos + i }).1 * Real.exp (-r * T)),
        { rng with pos := rng.pos + N.toNat }) ∧
    ∃ res, MonteCarloEuropeanOption Real.exp Real.sqrt S r v T N payoff cl rng =
      .ok (res, { rng with pos := rng.pos + N.toNat }) := by
  refine ⟨fun g => simulateBlackScholesPath_eq Real.exp Real.sqrt S r v T g, ?_,
    _, monteCarlo_spec S r v T N hN payoff cl rng⟩
  rw [simulationLoop_eq, List.nil_append]
  refine Prod.ext ?_ rfl
  apply List.map_congr_left
  intro i _
  simp only [specDiscountedPayoff, simulateBlackScholesPath_eq]

/-- Witness of C13: three trials starting at position `5` of the stream. -/
theorem C13_draws_consumed_witness :
    (0 : Int) ≤ 3 ∧
    ∃ res, MonteCarloEuropeanOption Real.exp Real.sqrt 100 0.05 0.2 1 3 (PayoffCall 105) 0.95
        ⟨fun i => (i : ℝ), 5⟩ =
      .ok (res, { (⟨fun i => (i : ℝ), 5⟩ : RandomSource ℝ) with pos := 5 + (3 : Int).toNat }) :=
  ⟨by decide,
    (C13_draws_consumed 100 0.05 0.2 1 3 (by decide) (PayoffCall 105) 0.95
      ⟨fun i => (i : ℝ), 5⟩).2.2⟩

/-! ## C14: determinism under a fixed stream of draws -/

/-- C14: two runs with identical parameters whose generators supply the same next `N`
draws produce the same outcome (the same `MonteCarloResult`, in all four fields, or the same
exception); for `N ≥ 0` both return a result.  The result thus depends only on the
parameters and the first `N` draws. -/
theorem C14_determinism (S r v T : ℝ) (N : Int) (payoff : Payoff ℝ) (cl : ℝ)
    (rng1 rng2 : RandomSource ℝ)
    (hdraws : ∀ i, i < N.toNat → rng1.draws (rng1.pos + i) = rng2.draws (rng2.pos + i)) :
    Except.map Prod.fst (MonteCarloEuropeanOption Real.exp Real.sqrt S r v T N payoff cl rng1) =
      Except.map Prod.fst
        (MonteCarloEuropeanOption Real.exp Real.sqrt S r v T N payoff cl rng2) ∧
    (0 ≤ N → ∃ res g1 g2,
      MonteCarloEuropeanOption Real.exp Real.sqrt S r v T N payoff cl rng1 = .ok (res, g1) ∧
      MonteCarloEuropeanOption Real.exp Real.sqrt S r v T N payoff cl rng2 = .ok (res, g2)) := by
  have hd : ∀ i, i < N.toNat →
      specDiscountedPayoff Real.exp Real.sqrt S r v T payoff rng1 i =
        specDiscountedPayoff Real.exp Real.sqrt S r v T payoff rng2 i :=
    fun i hi => specDiscountedPayoff_congr S r v T payoff rng1 rng2 i (hdraws i hi)
  have hok : 0 ≤ N → ∃ res g1 g2,
      MonteCarloEuropeanOption Real.exp Real.sqrt S r v T N payoff cl rng1 = .ok (res, g1) ∧
      MonteCarloEuropeanOption Real.exp Real.sqrt S r v T N payoff cl rng2 = .ok (res, g2) := by
    intro hN
    refine ⟨_, _, { rng2 with pos := rng2.pos + N.toNat },
      monteCarlo_spec S r v T N hN payoff cl rng1, ?_⟩
    rw [monteCarlo_spec S r v T N hN payoff cl rng2, specMean_congr _ _ _ hd,
      specStandardError_congr _ _ _ hd]
  refine ⟨?_, hok⟩
  by_cases hN : 0 ≤ N
  · obtain ⟨res, g1, g2, h1, h2⟩ := hok hN
    rw [h1, h2]
    rfl
  · rw [monteCarlo_neg Real.exp Real.sqrt S r v T N (by omega) payoff cl rng1,
      monteCarlo_neg Real.exp Real.sqrt S r v T N (by omega) payoff cl rng2]

/-- Witness of C14: two generators at different positions of different streams that supply
the same next two draws. -/
theorem C14_determinism_witness :
    (∀ i, i < (2 : Int).toNat →
      (⟨fun i => (i : ℝ), 3⟩ : RandomSource ℝ).draws
          ((⟨fun i => (i : ℝ), 3⟩ : RandomSource ℝ).pos + i) =
        (⟨fun i => (i : ℝ) + 3, 0⟩ : RandomSource ℝ).draws
          ((⟨fun i => (i : ℝ) + 3, 0⟩ : RandomSource ℝ).pos + i)) ∧
    ∃ res g1 g2,
      MonteCarloEuropeanOption Real.exp Real.sqrt 100 0.05 0.2 1 2 (PayoffCall 105) 0.95
        ⟨fun i => (i : ℝ), 3⟩ = .ok (res, g1) ∧
      MonteCarloEuropeanOption Real.exp Real.sqrt 100 0.05 0.2 1 2 (PayoffCall 105) 0.95
        ⟨fun i => (i : ℝ) + 3, 0⟩ = .ok (res, g2) :=
  have h : ∀ i, i < (2 : Int).toNat →
      (⟨fun i => (i : ℝ), 3⟩ : RandomSource ℝ).draws
          ((⟨fun i => (i : ℝ), 3⟩ : RandomSource ℝ).pos + i) =
        (⟨fun i => (i : ℝ) + 3, 0⟩ : RandomSource ℝ).draws
          ((⟨fun i => (i : ℝ) + 3, 0⟩ : RandomSource ℝ).pos + i) := by
    intro i _
    simp only [Nat.zero_add]
    push_cast
    ring
  ⟨h, (C14_determinism 100 0.05 0.2 1 2 (PayoffCall 105) 0.95 ⟨fun i => (i : ℝ), 3⟩
      ⟨fun i => (i : ℝ) + 3, 0⟩ h).2 (by decide)⟩

/-! ## Algebra of the sample statistics -/

theorem call_sub_put (K s : ℝ) : PayoffCall K s - PayoffPut K s = s - K := by
  simp only [PayoffCall, PayoffPut, std_max_eq_max]
  rcases le_total s K with h | h
  · rw [max_eq_left (by linarith), max_eq_right (by linarith)]
    ring
  · rw [max_eq_right (by linarith), max_eq_left (by linarith)]
    ring

theorem specMean_sub (d1 d2 : Nat → ℝ) (n : Nat) :
    specMean d1 n - specMean d2 n = specMean (fun i => d1 i - d2 i) n := by
  simp only [specMean, Finset.sum_sub_distrib, sub_div]

theorem specMean_mono (d1 d2 : Nat → ℝ) (n : Nat) (h : ∀ i, i < n → d1 i ≤ d2 i) :
    specMean d1 n ≤ specMean d2 n :=
  div_le_div_of_nonneg_right
    (Finset.sum_le_sum (fun i hi => h i (Finset.mem_range.mp hi))) (Nat.cast_nonneg n)

theorem specMean_const (c : ℝ) (n : Nat) (hn : 1 ≤ n) : specMean (fun _ => c) n = c := by
  have hn0 : (n : ℝ) ≠ 0 := by
    have : (0 : ℝ) < (n : ℝ) := by exact_mod_cast hn
    exact ne_of_gt this
  simp only [specMean, Finset.sum_const, Finset.card_range, nsmul_eq_mul]
  field_simp

theorem specMean_mul (c : ℝ) (d : Nat → ℝ) (n : Nat) :
    specMean (fun i => c * d i) n = c * specMean d n := by
  simp only [specMean, ← Finset.mul_sum, mul_div_assoc]

theorem specStandardError_mul (c : ℝ) (hc : 0 ≤ c) (d : Nat → ℝ) (n : Nat) :
    specStandardError Real.sqrt (fun i => c * d i) n =
      c * specStandardError Real.sqrt d n := by
  unfold specStandardError
  by_cases hle : n ≤ 1
  · simp only [hle, if_true, zero_div, mul_zero]
  · simp only [hle, if_false]
    have hsum : ∑ i in Finset.range n, (c * d i - specMean (fun i => c * d i) n) ^ 2 =
        c ^ 2 * ∑ i in Finset.range n, (d i - specMean d n) ^ 2 := by
      rw [specMean_mul, Finset.mul_sum]
      exact Finset.sum_congr rfl (fun i _ => by ring)
    rw [hsum, mul_div_assoc, Real.sqrt_mul (sq_nonneg c), Real.sqrt_sq hc, mul_div_assoc]

/-- In exact arithmetic, for at least two values the standard error vanishes exactly when
the values coincide. -/
theorem specStandardError_eq_zero_iff (d : Nat → ℝ) (n : Nat) (hn : 2 ≤ n) :
    specStandardError Real.sqrt d n = 0 ↔ ∀ i j, i < n → j < n → d i = d j := by
  have hle : ¬ n ≤ 1 := by omega
  have hn1 : (0 : ℝ) < (n : ℝ) - 1 := by
    have : (2 : ℝ) ≤ (n : ℝ) := by exact_mod_cast hn
    linarith
  have hsqrt : Real.sqrt (n : ℝ) ≠ 0 := by
    have : 0 < Real.sqrt (n : ℝ) := Real.sqrt_pos.mpr (by linarith)
    exact ne_of_gt this
  have hnonneg : ∀ i ∈ Finset.range n, 0 ≤ (d i - specMean d n) ^ 2 :=
    fun i _ => sq_nonneg _
  unfold specStandardError
  simp only [hle, if_false]
  rw [div_eq_zero_iff, or_iff_left hsqrt, Real.sqrt_eq_zero', div_le_iff₀ hn1, zero_mul]
  constructor
  · intro h
    have h0 : ∑ i in Finset.range n, (d i - specMean d n) ^ 2 = 0 :=
      le_antisymm h (Finset.sum_nonneg hnonneg)
    have hall := (Finset.sum_eq_zero_iff_of_nonneg hnonneg).mp h0
    have hm : ∀ i, i < n → d i = specMean d n := by
      intro i hi
      have := hall i (Finset.mem_range.mpr hi)
      have h2 : d i - specMean d n = 0 := by
        rcases pow_eq_zero_iff (two_ne_zero) |>.mp this with h3
        exact h3
      linarith
    intro i j hi hj
    rw [hm i hi, hm j hj]
  · intro h
    have hconst : specMean d n = d 0 := by
      rw [specMean_congr d (fun _ => d 0) n (fun i hi => h i 0 hi (by omega))]
      exact specMean_const (d 0) n (by omega)
    apply le_of_eq
    apply Finset.sum_eq_zero
    intro i hi
    rw [hconst, h i 0 (Finset.mem_range.mp hi) (by omega)]
    simp

theorem specTerminalPrice_mul (c S r v T z : ℝ) :
    specTerminalPrice Real.exp Real.sqrt (c * S) r v T z =
      c * specTerminalPrice Real.exp Real.sqrt S r v T z := by
  simp only [specTerminalPrice, mul_assoc]

theorem std_max_zero_mul (c x : ℝ) (hc : 0 ≤ c) : std_max 0 (c * x) = c * std_max 0 x := by
  rw [std_max_eq_max, std_max_eq_max, mul_max_of_nonneg _ _ hc, mul_zero]

theorem payoffCall_mul (c K s : ℝ) (hc : 0 ≤ c) :
    PayoffCall (c * K) (c * s) = c * PayoffCall K s := by
  simp only [PayoffCall]
  rw [← mul_sub, std_max_zero_mul _ _ hc]

theorem payoffPut_mul (c K s : ℝ) (hc : 0 ≤ c) :
    PayoffPut (c * K) (c * s) = c * PayoffPut K s := by
  simp only [PayoffPut]
  rw [← mul_sub, std_max_zero_mul _ _ hc]

/-! ## C15: sample put-call parity under matched draws -/

/-- C15: per path `PayoffCall K s − PayoffPut K s = s − K`, and for every strike `K`, every
market-parameter tuple, every `N ≥ 1` and one and the same draw sequence, the call price
minus the put price equals `exp(−rate·maturity) · ((1/N) · Σ S_i − K)`, where `S_i` is the
terminal price simulated from the `i`-th draw. -/
theorem C15_put_call_parity (S r v T : ℝ) (N : Int) (hN : 1 ≤ N) (K cl : ℝ)
    (rng : RandomSource ℝ) :
    (∀ s : ℝ, PayoffCall K s - PayoffPut K s = s - K) ∧
    ∃ call put g1 g2,
      MonteCarloEuropeanOption Real.exp Real.sqrt S r v T N (PayoffCall K) cl rng =
        .ok (call, g1) ∧
      MonteCarloEuropeanOption Real.exp Real.sqrt S r v T N (PayoffPut K) cl rng =
        .ok (put, g2) ∧
      call.price - put.price =
        Real.exp (-r * T) *
          ((1 / (N : ℝ)) * (∑ i in Finset.range N.toNat,
              specTerminalPrice Real.exp Real.sqrt S r v T (rng.draws (rng.pos + i))) - K) := by
  refine ⟨call_sub_put K, _, _, _, _,
    monteCarlo_spec S r v T N (by omega) (PayoffCall K) cl rng,
    monteCarlo_spec S r v T N (by omega) (PayoffPut K) cl rng, ?_⟩
  have hN0 : (N : ℝ) ≠ 0 := by
    have : (0 : ℝ) < (N : ℝ) := by exact_mod_cast (by omega : (0 : Int) < N)
    exact ne_of_gt this
  have hterm : ∀ i ∈ Finset.range N.toNat,
      specDiscountedPayoff Real.exp Real.sqrt S r v T (PayoffCall K) rng i -
        specDiscountedPayoff Real.exp Real.sqrt S r v T (PayoffPut K) rng i =
      Real.exp (-r * T) *
        specTerminalPrice Real.exp Real.sqrt S r v T (rng.draws (rng.pos + i)) -
        Real.exp (-r * T) * K := by
    intro i _
    simp only [specDiscountedPayoff]
    rw [← sub_mul, call_sub_put]
    ring
  simp only
  rw [specMean_sub, specMean, Finset.sum_congr rfl hterm, Finset.sum_sub_distrib,
    ← Finset.mul_sum, Finset.sum_const, Finset.card_range, nsmul_eq_mul,
    toNat_cast_real N (by omega)]
  field_simp
  ring

/-- Witness of C15: three trials, strike `105`. -/
theorem C15_put_call_parity_witness :
    (1 : Int) ≤ 3 ∧
    ∃ call put g1 g2,
      MonteCarloEuropeanOption Real.exp Real.sqrt 100 0.05 0.2 1 3 (PayoffCall 105) 0.95
        ⟨fun i => (i : ℝ) - 1, 0⟩ = .ok (call, g1) ∧
      MonteCarloEuropeanOption Real.exp Real.sqrt 100 0.05 0.2 1 3 (PayoffPut 105) 0.95
        ⟨fun i => (i : ℝ) - 1, 0⟩ = .ok (put, g2) ∧
      call.price - put.price =
        Real.exp (-0.05 * 1) *
          ((1 / ((3 : Int) : ℝ)) * (∑ i in Finset.range (3 : Int).toNat,
              specTerminalPrice Real.exp Real.sqrt 100 0.05 0.2 1
                ((⟨fun i => (i : ℝ) - 1, 0⟩ : RandomSource ℝ).draws
                  ((⟨fun i => (i : ℝ) - 1, 0⟩ : RandomSource ℝ).pos + i))) - 105) :=
  ⟨by decide,
    (C15_put_call_parity 100 0.05 0.2 1 3 (by decide) 105 0.95
      ⟨fun i => (i : ℝ) - 1, 0⟩).2⟩

/-! ## C17: monotonicity in the strike -/

theorem specTerminalPrice_pos (S r v T z : ℝ) (hS : 0 < S) :
    0 < specTerminalPrice Real.exp Real.sqrt S r v T z :=
  mul_pos hS (Real.exp_pos _)

/-- With a positive spot and a non-negative strike the put price is at most the discounted
strike. -/
theorem put_mean_le (S r v T K : ℝ) (rng : RandomSource ℝ) (n : Nat) (hn : 1 ≤ n)
    (hS : 0 < S) (hK : 0 ≤ K) :
    specMean (specDiscountedPayoff Real.exp Real.sqrt S r v T (PayoffPut K) rng) n ≤
      K * Real.exp (-r * T) := by
  have hbound : ∀ i, i < n →
      specDiscountedPayoff Real.exp Real.sqrt S r v T (PayoffPut K) rng i ≤
        (fun _ => K * Real.exp (-r * T)) i := by
    intro i _
    simp only [specDiscountedPayoff, PayoffPut, std_max_eq_max]
    apply mul_le_mul_of_nonneg_right _ (Real.exp_pos _).le
    have hpos := specTerminalPrice_pos S r v T (rng.draws (rng.pos + i)) hS
    exact max_le hK (by linarith)
  calc specMean (specDiscountedPayoff Real.exp Real.sqrt S r v T (PayoffPut K) rng) n
      ≤ specMean (fun _ => K * Real.exp (-r * T)) n := specMean_mono _ _ n hbound
    _ = K * Real.exp (-r * T) := specMean_const _ n hn

/-- C17: for a fixed market-parameter tuple, `N ≥ 1` and one and the same draw sequence, for
`K1 ≤ K2` the call price at `K1` is at least the call price at `K2` and the put price at `K1`
is at most the put price at `K2`; moreover, when `spot > 0`, the put price at a strike
`K ≥ 0` never exceeds `K · exp(−rate·maturity)`. -/
theorem C17_strike_monotone (S r v T : ℝ) (N : Int) (hN : 1 ≤ N) (K1 K2 cl : ℝ)
    (rng : RandomSource ℝ) (hK : K1 ≤ K2) :
    ∃ call1 call2 put1 put2 g1 g2 g3 g4,
      MonteCarloEuropeanOption Real.exp Real.sqrt S r v T N (PayoffCall K1) cl rng =
        .ok (call1, g1) ∧
      MonteCarloEuropeanOption Real.exp Real.sqrt S r v T N (PayoffCall K2) cl rng =
        .ok (call2, g2) ∧
      MonteCarloEuropeanOption Real.exp Real.sqrt S r v T N (PayoffPut K1) cl rng =
        .ok (put1, g3) ∧
      MonteCarloEuropeanOption Real.exp Real.sqrt S r v T N (PayoffPut K2) cl rng =
        .ok (put2, g4) ∧
      call2.price ≤ call1.price ∧
      put1.price ≤ put2.price ∧
      (0 < S → 0 ≤ K1 → put1.price ≤ K1 * Real.exp (-r * T)) ∧
      (0 < S → 0 ≤ K2 → put2.price ≤ K2 * Real.exp (-r * T)) := by
  have hn : 1 ≤ N.toNat := by omega
  refine ⟨_, _, _, _, _, _, _, _,
    monteCarlo_spec S r v T N (by omega) (PayoffCall K1) cl rng,
    monteCarlo_spec S r v T N (by omega) (PayoffCall K2) cl rng,
    monteCarlo_spec S r v T N (by omega) (PayoffPut K1) cl rng,
    monteCarlo_spec S r v T N (by omega) (PayoffPut K2) cl rng, ?_, ?_,
    fun hS hK1 => put_mean_le S r v T K1 rng N.toNat hn hS hK1,
    fun hS hK2 => put_mean_le S r v T K2 rng N.toNat hn hS hK2⟩
  · apply specMean_mono
    intro i _
    simp only [specDiscountedPayoff, PayoffCall, std_max_eq_max]
    exact mul_le_mul_of_nonneg_right (max_le_max (le_refl 0) (by linarith))
      (Real.exp_pos _).le
  · apply specMean_mono
    intro i _
    simp only [specDiscountedPayoff, PayoffPut, std_max_eq_max]
    exact mul_le_mul_of_nonneg_right (max_le_max (le_refl 0) (by linarith))
      (Real.exp_pos _).le

/-- Witness of C17: strikes `100 ≤ 105`, spot `100`, three trials. -/
theorem C17_strike_monotone_witness :
    (1 : Int) ≤ 3 ∧ (100 : ℝ) ≤ 105 ∧ (0 : ℝ) < 100 ∧ (0 : ℝ) ≤ 105 ∧
    ∃ call1 call2 put1 put2 g1 g2 g3 g4,
      MonteCarloEuropeanOption Real.exp Real.sqrt 100 0.05 0.2 1 3 (PayoffCall 100) 0.95
        ⟨fun i => (i : ℝ) - 1, 0⟩ = .ok (call1, g1) ∧
      MonteCarloEuropeanOption Real.exp Real.sqrt 100 0.05 0.2 1 3 (PayoffCall 105) 0.95
        ⟨fun i => (i : ℝ) - 1, 0⟩ = .ok (call2, g2) ∧
      MonteCarloEuropeanOption Real.exp Real.sqrt 100 0.05 0.2 1 3 (PayoffPut 100) 0.95
        ⟨fun i => (i : ℝ) - 1, 0⟩ = .ok (put1, g3) ∧
      MonteCarloEuropeanOption Real.exp Real.sqrt 100 0.05 0.2 1 3 (PayoffPut 105) 0.95
        ⟨fun i => (i : ℝ) - 1, 0⟩ = .ok (put2, g4) ∧
      call2.price ≤ call1.price ∧
      put1.price ≤ put2.price ∧
      put2.price ≤ 105 * Real.exp (-0.05 * 1) := by
  obtain ⟨call1, call2, put1, put2, g1, g2, g3, g4, h1, h2, h3, h4, hc, hp, -, hb⟩ :=
    C17_strike_monotone 100 0.05 0.2 1 3 (by decide) 100 105 0.95
      ⟨fun i => (i : ℝ) - 1, 0⟩ (by norm_num)
  exact ⟨by decide, by norm_num, by norm_num, by norm_num,
    call1, call2, put1, put2, g1, g2, g3, g4, h1, h2, h3, h4, hc, hp,
    hb (by norm_num) (by norm_num)⟩

/-! ## C18: homogeneity of degree one -/

theorem specDiscountedPayoff_call_mul (c S r v T K : ℝ) (hc : 0 ≤ c) (rng : RandomSource ℝ) :
    specDiscountedPayoff Real.exp Real.sqrt (c * S) r v T (PayoffCall (c * K)) rng =
      fun i => c * specDiscountedPayoff Real.exp Real.sqrt S r v T (PayoffCall K) rng i := by
  funext i
  simp only [specDiscountedPayoff]
  rw [specTerminalPrice_mul, payoffCall_mul _ _ _ hc, mul_assoc]

theorem specDiscountedPayoff_put_mul (c S r v T K : ℝ) (hc : 0 ≤ c) (rng : RandomSource ℝ) :
    specDiscountedPayoff Real.exp Real.sqrt (c * S) r v T (PayoffPut (c * K)) rng =
      fun i => c * specDiscountedPayoff Real.exp Real.sqrt S r v T (PayoffPut K) rng i := by
  funext i
  simp only [specDiscountedPayoff]
  rw [specTerminalPrice_mul, payoffPut_mul _ _ _ hc, mul_assoc]

/-- C18: for every scale factor `c > 0`, `N ≥ 1`, confidence level and one and the same
draw sequence, pricing a call (or a put) with spot `c·S0` and strike `c·K` yields `price`,
`standardError`, `confidenceIntervalLower` and `confidenceIntervalUpper` each equal to `c`
times the corresponding field obtained with spot `S0` and strike `K`. -/
theorem C18_homogeneity (c S0 r v T : ℝ) (N : Int) (hN : 1 ≤ N) (K cl : ℝ)
    (rng : RandomSource ℝ) (hc : 0 < c) :
    (∃ base scaled g1 g2,
      MonteCarloEuropeanOption Real.exp Real.sqrt S0 r v T N (PayoffCall K) cl rng =
        .ok (base, g1) ∧
      MonteCarloEuropeanOption Real.exp Real.sqrt (c * S0) r v T N (PayoffCall (c * K)) cl rng =
        .ok (scaled, g2) ∧
      scaled.price = c * base.price ∧
      scaled.standardError = c * base.standardError ∧
      scaled.confidenceIntervalLower = c * base.confidenceIntervalLower ∧
      scaled.confidenceIntervalUpper = c * base.confidenceIntervalUpper) ∧
    (∃ base scaled g1 g2,
      MonteCarloEuropeanOption Real.exp Real.sqrt S0 r v T N (PayoffPut K) cl rng =
        .ok (base, g1) ∧
      MonteCarloEuropeanOption Real.exp Real.sqrt (c * S0) r v T N (PayoffPut (c * K)) cl rng =
        .ok (scaled, g2) ∧
      scaled.price = c * base.price ∧
      scaled.standardError = c * base.standardError ∧
      scaled.confidenceIntervalLower = c * base.confidenceIntervalLower ∧
      scaled.confidenceIntervalUpper = c * base.confidenceIntervalUpper) := by
  constructor
  · refine ⟨_, _, _, _,
      monteCarlo_spec S0 r v T N (by omega) (PayoffCall K) cl rng,
      monteCarlo_spec (c * S0) r v T N (by omega) (PayoffCall (c * K)) cl rng, ?_, ?_, ?_, ?_⟩
    all_goals
      simp only [specDiscountedPayoff_call_mul c S0 r v T K hc.le rng, specMean_mul,
        specStandardError_mul c hc.le]
    all_goals ring
  · refine ⟨_, _, _, _,
      monteCarlo_spec S0 r v T N (by omega) (PayoffPut K) cl rng,
      monteCarlo_spec (c * S0) r v T N (by omega) (PayoffPut (c * K)) cl rng, ?_, ?_, ?_, ?_⟩
    all_goals
      simp only [specDiscountedPayoff_put_mul c S0 r v T K hc.le rng, specMean_mul,
        specStandardError_mul c hc.le]
    all_goals ring

/-- Witness of C18: scale factor `2`, three trials, strike `105`. -/
theorem C18_homogeneity_witness :
    (1 : Int) ≤ 3 ∧ (0 : ℝ) < 2 ∧
    ∃ base scaled g1 g2,
      MonteCarloEuropeanOption Real.exp Real.sqrt 100 0.05 0.2 1 3 (PayoffCall 105) 0.99
        ⟨fun i => (i : ℝ) - 1, 0⟩ = .ok (base, g1) ∧
      MonteCarloEuropeanOption Real.exp Real.sqrt (2 * 100) 0.05 0.2 1 3
        (PayoffCall (2 * 105)) 0.99 ⟨fun i => (i : ℝ) - 1, 0⟩ = .ok (scaled, g2) ∧
      scaled.price = 2 * base.price ∧
      scaled.standardError = 2 * base.standardError ∧
      scaled.confidenceIntervalLower = 2 * base.confidenceIntervalLower ∧
      scaled.confidenceIntervalUpper = 2 * base.confidenceIntervalUpper :=
  ⟨by decide, by norm_num,
    (C18_homogeneity 2 100 0.05 0.2 1 3 (by decide) 105 0.99
      ⟨fun i => (i : ℝ) - 1, 0⟩ (by norm_num)).1⟩
